import Mathlib

/-!
Verification development for the miniwdl s3upload plugin
(src/s3upload/miniwdl_s3upload.py), a shallow embedding of its
upload ledger, pending cache-insert registry, cache backend and
workflow-finalizer logic, together with theorems settling the
frozen claims about them.

Modelling conventions:
* A local-file identity (`st_dev`, `st_ino`) is a pair of naturals.
* The module-level dicts `_uploaded_files` and `_cached_files` are
  association lists where an assignment conses a new entry on the
  front and lookup takes the first match (so the latest write wins,
  exactly like a Python dict assignment).
* `Value.rewrite_env_paths(outputs, f)` visiting the `File` and
  `Directory` values of an environment in order is modelled by a
  traversal over `List WValue`, where `WValue.other` stands for any
  non-path value.
* `os.stat`/`os.path.realpath` are modelled by an abstract
  filesystem `FS`; `inode` composes them as the source does.
* Remote side effects (the manifest written by `cache_put`, uploads
  performed by `s3cp`) are recorded in the explicit state `PState`
  or returned as `Except` errors, mirroring raised exceptions.
-/

namespace MiniwdlS3

/-- A file identity: the (st_dev, st_ino) pair. -/
abbrev DevIno := Nat × Nat

/-- Association-list lookup keyed by `DevIno`; first match wins,
matching a Python dict where assignments cons on the front. -/
def alookup {α : Type} : List (DevIno × α) → DevIno → Option α
  | [], _ => none
  | (k, v) :: es, i => if i = k then some v else alookup es i

/-- Python `os.path.join` on two components. -/
def pathJoin (a b : String) : String :=
  if b.data.head? = some '/' then b
  else if a = ("") ∨ a.data.getLast? = some '/' then a ++ b
  else a ++ ("/") ++ b

/-- Python `s[1:]` on a string. -/
def strDrop1 (s : String) : String := String.mk (s.data.drop 1)

/-- One WDL output value as visited by `Value.rewrite_env_paths`:
a `File` value, a `Directory` value, or any non-path value. -/
inductive WValue where
  | file : String → WValue
  | dir : String → WValue
  | other : String → WValue

deriving instance DecidableEq for WValue

/-- The path carried by a `File`/`Directory` value, if any. -/
def WValue.pathRef : WValue → Option String
  | .file p => some p
  | .dir p => some p
  | .other _ => none

/-- Rebuild a `File`/`Directory` value with a replacement path,
as `rewrite_env_paths` does with the callback result. -/
def WValue.withPath : WValue → String → WValue
  | .file _, s => .file s
  | .dir _, s => .dir s
  | .other x, _ => .other x

/-- The configuration keys read by the plugin. -/
structure PluginConfig where
  callCachePut : Bool
  callCacheBackend : String
  uriPfx : String
  getUriPfx : Option String
  callCacheDir : String

deriving instance DecidableEq for PluginConfig

/-- The backend marker string checked by `cache_put`. -/
def s3BackendName : String := "s3_progressive_upload_call_cache_backend"

/-- `get_s3_put_prefix`: the configured upload destination. -/
def get_s3_put_pfx (cfg : PluginConfig) : String := cfg.uriPfx

/-- `get_s3_get_prefix`: the cache-read destination, falling back to
the put destination when unset or empty (Python falsiness). -/
def get_s3_get_pfx (cfg : PluginConfig) : String :=
  match cfg.getUriPfx with
  | none => get_s3_put_pfx cfg
  | some p => if p = ("") then get_s3_put_pfx cfg else p

/-- The process-wide mutable state: the Upload Ledger
(`_uploaded_files`), the Pending Cache-Insert Registry
(`_cached_files`), and the list of cache manifests written to the
remote store so far (each with its URI and remapped values). -/
structure PState where
  uploaded : List (DevIno × String)
  cached : List (DevIno × (String × List WValue))
  published : List (String × List WValue)

deriving instance DecidableEq for PState

/-- The remote URI `cache_put` publishes a manifest to:
`os.path.join(get_s3_put_prefix(cfg), "cache", key + ".json")`. -/
def manifestUri (cfg : PluginConfig) (key : String) : String :=
  pathJoin (pathJoin (get_s3_put_pfx cfg) ("cache")) (key ++ (".json"))

/-- The `cache` closure of `cache_put` folded over the visited
values: threads the nonlocal `missing` flag (sticky once true) and
returns the remapped values. -/
def cacheRemap (ident : String → DevIno) (up : List (DevIno × String)) :
    List WValue → Bool → Bool × List WValue
  | [], b => (b, [])
  | v :: vs, b =>
    match v.pathRef with
    | none =>
      let r := cacheRemap ident up vs b
      (r.1, v :: r.2)
    | some p =>
      let b' := b || (alookup up (ident p)).isNone
      let r := cacheRemap ident up vs b'
      (r.1, v.withPath (if b' then ("") else (alookup up (ident p)).getD ("")) :: r.2)

/-- `cache_put(cfg, logger, key, outputs)`: no-op unless call-cache
writes are enabled and the configured backend is this plugin's; then
remaps the outputs against the Upload Ledger and publishes the
manifest only when no referenced identity was missing. -/
def cache_put (cfg : PluginConfig) (ident : String → DevIno) (key : String)
    (outputs : List WValue) (st : PState) : PState :=
  if cfg.callCachePut = true ∧ cfg.callCacheBackend = s3BackendName then
    if (cacheRemap ident st.uploaded outputs false).1 = true then st
    else
      { st with published := st.published ++
          [(manifestUri cfg key, (cacheRemap ident st.uploaded outputs false).2)] }
  else st

/-- The `cache` closure of `CallCache.put`: assigns
`_cached_files[inode(v.value)] = (key, outputs)` for every visited
`File`/`Directory` value (and returns `""`, which is discarded). -/
def registerRefs (ident : String → DevIno) (key : String) (outputs : List WValue)
    (cached : List (DevIno × (String × List WValue))) :
    List (DevIno × (String × List WValue)) :=
  outputs.foldl (fun c v =>
    match v.pathRef with
    | some p => (ident p, (key, outputs)) :: c
    | none => c) cached

/-- `CallCache.put(key, outputs)`: returns unless call-cache writes
are enabled; otherwise, under the shared lock, registers every
referenced identity in the Pending Cache-Insert Registry and then
runs `cache_put`. -/
def callCachePutMethod (cfg : PluginConfig) (ident : String → DevIno) (key : String)
    (outputs : List WValue) (st : PState) : PState :=
  if cfg.callCachePut = true then
    cache_put cfg ident key outputs { st with cached := registerRefs ident key outputs st.cached }
  else st

/-- The command line `s3cp` invokes: `["s3parcp", fn, s3uri]`. -/
def s3cpCmd (fn s3uri : String) : String := ("s3parcp ") ++ fn ++ (" ") ++ s3uri

/-- `s3cp(logger, fn, s3uri)`: runs the external copy tool; on a
non-zero exit status raises `WDL.Error.RuntimeError("failed: " +
" ".join(cmd))`. -/
def s3cp (returncode : Nat) (fn s3uri : String) : Except String Unit :=
  if returncode ≠ 0 then .error (("failed: ") ++ s3cpCmd fn s3uri) else .ok ()

/-- `upload_file(abs_fn, s3uri)` from the task hook: runs `s3cp`,
then, under the shared lock, records the identity → URI mapping in
the Upload Ledger and, if that identity has a pending cache entry,
re-attempts `cache_put` with it (the entry is not deleted). -/
def upload_file (cfg : PluginConfig) (ident : String → DevIno) (returncode : Nat)
    (absFn s3uri : String) (st : PState) : Except String PState :=
  match s3cp returncode absFn s3uri with
  | .error e => .error e
  | .ok _ =>
    match alookup st.cached (ident absFn) with
    | some kv => .ok (cache_put cfg ident kv.1 kv.2
        { st with uploaded := (ident absFn, s3uri) :: st.uploaded })
    | none => .ok { st with uploaded := (ident absFn, s3uri) :: st.uploaded }

/-- A sequence of successful uploads (`returncode = 0` each),
performed in order by the task hook. -/
def runUploads (cfg : PluginConfig) (ident : String → DevIno) :
    List (String × String) → PState → Except String PState
  | [], st => .ok st
  | e :: es, st =>
    match upload_file cfg ident 0 e.1 e.2 st with
    | .error err => .error err
    | .ok st' => runUploads cfg ident es st'

/-- The direct ledger write the task hook performs for a
directory-valued output:
`_uploaded_files[inode(output_contents[0])] = join(prefix, basename) + "/"`.
Unlike `upload_file`, it does not consult `_cached_files` and never
calls `cache_put`, so it triggers no manifest publication. -/
def recordDirEntry (ident : String → DevIno) (dirPath uri : String) (st : PState) : PState :=
  { st with uploaded := (ident dirPath, uri) :: st.uploaded }

/-- Identities of the `File`/`Directory` values of an output list. -/
def refIds (ident : String → DevIno) (outputs : List WValue) : List DevIno :=
  outputs.filterMap (fun v => v.pathRef.map ident)

/-- Whether one value references an identity absent from the ledger. -/
def missingRef (ident : String → DevIno) (up : List (DevIno × String)) (v : WValue) : Bool :=
  match v.pathRef with
  | some p => (alookup up (ident p)).isNone
  | none => false

/-- Whether any visited value references an identity absent from the
ledger (the final value of `cache_put`'s `missing` flag). -/
def anyMissingB (ident : String → DevIno) (up : List (DevIno × String))
    (vs : List WValue) : Bool :=
  vs.any (missingRef ident up)

/-- The identities an insert still waits for: referenced identities
absent from the ledger, deduplicated. -/
def missingIds (ident : String → DevIno) (up : List (DevIno × String))
    (outputs : List WValue) : List DevIno :=
  ((refIds ident outputs).filter (fun i => (alookup up i).isNone)).dedup

/-- Remap every `File`/`Directory` value to its ledger URI (used to
describe the manifest `cache_put` publishes when nothing is missing). -/
def resolveAll (ident : String → DevIno) (up : List (DevIno × String))
    (outputs : List WValue) : List WValue :=
  outputs.map (fun v =>
    match v.pathRef with
    | some p => v.withPath ((alookup up (ident p)).getD (""))
    | none => v)

/-- The identities recorded by a list of upload events. -/
def eventIds (ident : String → DevIno) (es : List (String × String)) : List DevIno :=
  es.map (fun e => ident e.1)

/-- An abstract local filesystem: `realpath` resolves symlinks to a
canonical path, every resolved path designates an underlying file
object, and each file object has a (device, inode) pair. Hardlinks
are distinct resolved paths designating the same file object. -/
structure FS where
  realpath : String → String
  fileObject : String → Nat
  devInoOf : Nat → DevIno

/-- `os.stat(p)` restricted to the fields the plugin reads. -/
def FS.stat (fs : FS) (p : String) : DevIno := fs.devInoOf (fs.fileObject p)

/-- `inode(link)`: `os.stat(os.path.realpath(link))` → (st_dev, st_ino). -/
def inode (fs : FS) (link : String) : DevIno := fs.stat (fs.realpath link)

/-- The exception escaping `write_outputs_s3_json`'s rewriter when a
referenced identity is absent from the ledger: after logging the
warning, `return fn` reads the enclosing function's local `fn`,
which is only assigned later, raising a NameError. -/
inductive RewriteError where
  | unboundLocalFn

deriving instance DecidableEq for RewriteError

/-- The rewriting pass of `write_outputs_s3_json`
(`WDL.Value.rewrite_env_paths(outputs, rewriter)`): returns the
number of warnings logged and either the rewritten values or the
exception that aborted the traversal. -/
def rewriteEnvPathsS3 (ident : String → DevIno) (up : List (DevIno × String)) :
    List WValue → Nat × Except RewriteError (List WValue)
  | [] => (0, .ok [])
  | v :: vs =>
    match v.pathRef with
    | none =>
      let r := rewriteEnvPathsS3 ident up vs
      (r.1, r.2.map (fun vs' => v :: vs'))
    | some p =>
      match alookup up (ident p) with
      | some uri =>
        let r := rewriteEnvPathsS3 ident up vs
        (r.1, r.2.map (fun vs' => v.withPath uri :: vs'))
      | none => (1, .error .unboundLocalFn)

/-- The outcome of `s3_client.download_file`: the object's bytes, or
a `botocore` ClientError carrying an error code (`"404"` = absent). -/
inductive DownloadResult where
  | ok : String → DownloadResult
  | clientError : String → DownloadResult

/-- Characters before the first `/`, and the characters after it. -/
def splitFirstSlash : List Char → List Char × Option (List Char)
  | [] => ([], none)
  | c :: cs =>
    if c = '/' then ([], some cs)
    else (c :: (splitFirstSlash cs).1, (splitFirstSlash cs).2)

/-- `urllib.parse.urlparse` on an `s3://bucket/path` URI, restricted
to the `hostname` and `path` fields the plugin reads. -/
def urlparseHostPath (uri : String) : String × String :=
  let rest := uri.data.drop 5
  (String.mk (splitFirstSlash rest).1,
    match (splitFirstSlash rest).2 with
    | none => ("")
    | some cs => String.mk ('/' :: cs))

/-- The bucket `CallCache.get` downloads from. -/
def getBucket (cfg : PluginConfig) : String :=
  (urlparseHostPath (get_s3_get_pfx cfg)).1

/-- The object key `CallCache.get` computes and then also passes to
the base class: `os.path.join(prefix, "cache", key + ".json")[1:]`,
where `prefix` is the path component of the get-prefix URI. -/
def getDerivedKey (cfg : PluginConfig) (key0 : String) : String :=
  strDrop1 (pathJoin (pathJoin (urlparseHostPath (get_s3_get_pfx cfg)).2 ("cache"))
    (key0 ++ (".json")))

/-- The local path the manifest is downloaded to:
`os.path.join(cfg["call_cache"]["dir"], key + ".json")` with the
already-rewritten key. -/
def localCachePath (cfg : PluginConfig) (key0 : String) : String :=
  pathJoin cfg.callCacheDir (getDerivedKey cfg key0 ++ (".json"))

/-- `CallCache.get(key, inputs, output_types)`: downloads the remote
manifest into the local cache store (seeding it), treats a `"404"`
ClientError as a miss, re-raises any other ClientError, and finally
delegates to the base class lookup (`superGet`, abstract here) with
the rewritten key and the unchanged inputs and output types. -/
def callCacheGet {α β γ : Type} (cfg : PluginConfig)
    (download : String → String → DownloadResult)
    (superGet : List (String × String) → String → α → β → Option γ)
    (store : List (String × String)) (key0 : String) (inputs : α) (otypes : β) :
    Except String (Option γ) :=
  match download (getBucket cfg) (getDerivedKey cfg key0) with
  | .ok content =>
    .ok (superGet ((localCachePath cfg key0, content) :: store)
        (getDerivedKey cfg key0) inputs otypes)
  | .clientError code =>
    if code ≠ ("404") then .error code
    else .ok (superGet store (getDerivedKey cfg key0) inputs otypes)

/-- Classification of one directory entry under a task's per-output
subdirectory, as probed by `os.path.isdir`/`islink`/`isfile`. -/
inductive EntryKind where
  | regularFile
  | symlinkDir
  | plainDir

deriving instance DecidableEq for EntryKind

/-- One entry of a per-output subdirectory. For a `symlinkDir`,
`walkFiles` lists the relative paths of every regular file beneath
it in `os.walk` order; for a `plainDir` (array index directory),
`children` is its directory listing. -/
structure DirEntry where
  name : String
  kind : EntryKind
  walkFiles : List String
  children : List String

deriving instance DecidableEq for DirEntry

/-- Python `not fn.startswith(".")` for directory-listing filters. -/
def notHidden (s : String) : Bool :=
  if s.data.head? = some '.' then false else true

/-- Python `str.isdigit`: nonempty and all digits. -/
def pyIsDigit (s : String) : Bool :=
  !s.data.isEmpty && s.data.all Char.isDigit

/-- The uploads and the direct ledger write produced for one output
parameter: `dirRecord` is the `(path, uri)` pair written straight
into the Upload Ledger for a directory-valued output, `uploads` the
`(abs_fn, s3uri)` pairs passed to `upload_file` in order. -/
structure UploadActions where
  dirRecord : Option (String × String)
  uploads : List (String × String)

deriving instance DecidableEq for UploadActions

/-- The per-index-directory loop of the file-array branch: for each
index directory, its non-hidden listing must be a single file `fn`,
uploaded to `os.path.join(s3prefix, fn)`. -/
def mapIndexUploads (s3pfx absOutput : String) : List DirEntry → Option (List (String × String))
  | [] => some []
  | e :: es =>
    match e.children.filter notHidden with
    | [fn] =>
      (mapIndexUploads s3pfx absOutput es).map
        (fun rest => (pathJoin (pathJoin absOutput e.name) fn, pathJoin s3pfx fn) :: rest)
    | _ => none

/-- The file-array branch of the task hook: every entry name must be
numeric (`isdigit`), then each index directory contributes one
upload. -/
def arrayCase (s3pfx absOutput : String) (contents : List DirEntry) :
    Except String UploadActions :=
  if !contents.all (fun e => pyIsDigit e.name) then .error ("assert isdigit")
  else
    match mapIndexUploads s3pfx absOutput contents with
    | some ups => .ok { dirRecord := none, uploads := ups }
    | none => .error ("assert len(fns) == 1")

/-- Processing of one output parameter's subdirectory by the task
hook: filter hidden entries, then classify into directory-valued
output (single symlinked directory), file output (single regular
file), or file-array output. -/
def processOutput (s3pfx absOutput : String) (entries : List DirEntry) :
    Except String UploadActions :=
  match entries.filter (fun e => notHidden e.name) with
  | [] => .error ("assert output_contents")
  | [c] =>
    if c.kind = EntryKind.symlinkDir then
      .ok { dirRecord := some (pathJoin absOutput c.name, pathJoin s3pfx c.name ++ ("/")),
            uploads := c.walkFiles.map (fun rel =>
              (pathJoin (pathJoin absOutput c.name) rel,
               pathJoin s3pfx (pathJoin c.name rel))) }
    else if c.kind = EntryKind.regularFile then
      .ok { dirRecord := none,
            uploads := [(pathJoin absOutput c.name, pathJoin s3pfx c.name)] }
    else arrayCase s3pfx absOutput [c]
  | c1 :: c2 :: cs => arrayCase s3pfx absOutput (c1 :: c2 :: cs)

/-- An index-directory entry holding a single file, as produced by
the runtime for an array-valued output. -/
def mkIndexEntry (x : String × String) : DirEntry :=
  { name := x.1, kind := EntryKind.plainDir, walkFiles := [], children := [x.2] }

/-! Concrete instances used by witnesses and counterexamples. -/

/-- A concrete identity function for witnesses: distinct path
lengths give distinct (device, inode) pairs. -/
def identC : String → DevIno := fun s => (s.data.length, 0)

/-- A configuration with call-cache writes enabled and this plugin's
backend configured. -/
def cfgOn : PluginConfig :=
  { callCachePut := true, callCacheBackend := s3BackendName,
    uriPfx := "s3://u", getUriPfx := none, callCacheDir := "/cc" }

/-- A configuration with call-cache writes enabled but a different
cache backend configured. -/
def cfgOtherBackend : PluginConfig :=
  { callCachePut := true, callCacheBackend := "dir_call_cache",
    uriPfx := "s3://u", getUriPfx := none, callCacheDir := "/cc" }

/-- A configuration for cache-get examples. -/
def cfgGet : PluginConfig :=
  { callCachePut := false, callCacheBackend := "dir_call_cache",
    uriPfx := "s3://b/p", getUriPfx := none, callCacheDir := "/cc" }

/-- The empty process state. -/
def pst0 : PState := { uploaded := [], cached := [], published := [] }

/-- A state whose registry holds a pending entry for identity (1,0). -/
def stC2 : PState :=
  { uploaded := [], cached := [((1, 0), ("k", [WValue.file ("a")]))], published := [] }

/-- A state whose ledger already records identity (1,0). -/
def stC3 : PState :=
  { uploaded := [((1, 0), ("s3://u/a"))], cached := [], published := [] }

/-- Output bindings referencing two file values and one plain value. -/
def outputs1 : List WValue := [WValue.file ("a"), WValue.other ("x"), WValue.file ("bb")]

/-- Upload events for `outputs1`, completing in reverse order. -/
def events1 : List (String × String) := [(("bb"), ("s3://u/bb/")), (("a"), ("s3://u/a"))]

/-- A download that always reports the object absent. -/
def dl404 : String → String → DownloadResult := fun _ _ => .clientError ("404")

/-- A download that always fails with a non-404 transport error. -/
def dl500 : String → String → DownloadResult := fun _ _ => .clientError ("500")

/-- A download that always succeeds with fixed content. -/
def dlOk : String → String → DownloadResult := fun _ _ => .ok ("manifest")

/-- A base-class lookup ignoring all arguments. -/
def superGetNone : List (String × String) → String → Unit → Unit → Option Nat :=
  fun _ _ _ _ => none

/-- A base-class lookup that hits exactly on the original key "K". -/
def superGetKeyed : List (String × String) → String → Unit → Unit → Option Nat :=
  fun _ k _ _ => if k = ("K") then some 0 else none

/-- A filesystem with one file object (number 7) reachable both via
the hardlink path "hard" and via the symlink "sym" → "target". -/
def fsW : FS :=
  { realpath := fun s => if s = ("sym") then ("target") else s,
    fileObject := fun s => if s = ("target") then 7 else if s = ("hard") then 7 else 0,
    devInoOf := fun n => (1, 41 + n) }

theorem alookup_cons {α : Type} (k : DevIno) (v : α) (l : List (DevIno × α)) (i : DevIno) :
    alookup ((k, v) :: l) i = if i = k then some v else alookup l i := rfl

theorem isSome_alookup_cons {α : Type} {l : List (DevIno × α)} {i : DevIno} (k : DevIno) (v : α)
    (h : (alookup l i).isSome = true) : (alookup ((k, v) :: l) i).isSome = true := by
  rw [alookup_cons]
  split <;> simp [h]

theorem refIds_cons_none {ident : String → DevIno} {v : WValue} {vs : List WValue}
    (h : v.pathRef = none) : refIds ident (v :: vs) = refIds ident vs := by
  simp [refIds, List.filterMap_cons, h]

theorem refIds_cons_some {ident : String → DevIno} {v : WValue} {vs : List WValue} {p : String}
    (h : v.pathRef = some p) : refIds ident (v :: vs) = ident p :: refIds ident vs := by
  simp [refIds, List.filterMap_cons, h]

theorem cacheRemap_fst (ident : String → DevIno) (up : List (DevIno × String)) :
    ∀ (vs : List WValue) (b : Bool),
      (cacheRemap ident up vs b).1 = (b || anyMissingB ident up vs) := by
  intro vs
  induction vs with
  | nil => intro b; simp [cacheRemap, anyMissingB]
  | cons v vs ih =>
    intro b
    cases hv : v.pathRef with
    | none =>
      simp [cacheRemap, hv, anyMissingB, List.any_cons, missingRef, ih]
    | some p =>
      simp [cacheRemap, hv, anyMissingB, List.any_cons, missingRef, ih, Bool.or_assoc]

theorem cacheRemap_of_not_missing (ident : String → DevIno) (up : List (DevIno × String)) :
    ∀ vs : List WValue, anyMissingB ident up vs = false →
      cacheRemap ident up vs false = (false, resolveAll ident up vs) := by
  intro vs
  induction vs with
  | nil => intro _; simp [cacheRemap, resolveAll]
  | cons v vs ih =>
    intro h
    rw [anyMissingB, List.any_cons, Bool.or_eq_false_iff] at h
    cases hv : v.pathRef with
    | none =>
      simp [cacheRemap, hv, resolveAll, List.map_cons]
      have := ih h.2
      rw [resolveAll] at this
      simp [this, hv]
    | some p =>
      have hm : (alookup up (ident p)).isNone = false := by
        have := h.1
        rw [missingRef, hv] at this
        exact this
      simp [cacheRemap, hv, hm, resolveAll, List.map_cons]
      have := ih h.2
      rw [resolveAll] at this
      simp [this, hv]

theorem anyMissingB_eq_false_iff (ident : String → DevIno) (up : List (DevIno × String))
    (vs : List WValue) :
    anyMissingB ident up vs = false ↔
      ∀ i ∈ refIds ident vs, (alookup up i).isSome = true := by
  induction vs with
  | nil => simp [anyMissingB, refIds]
  | cons v vs ih =>
    cases hv : v.pathRef with
    | none =>
      rw [anyMissingB, List.any_cons, Bool.or_eq_false_iff, refIds_cons_none hv]
      rw [anyMissingB] at ih
      simp [missingRef, hv, ih]
    | some p =>
      rw [anyMissingB, List.any_cons, Bool.or_eq_false_iff, refIds_cons_some hv]
      rw [anyMissingB] at ih
      cases halo : alookup up (ident p) with
      | none => simp [missingRef, hv, halo, ih]
      | some u => simp [missingRef, hv, halo, ih]

theorem anyMissingB_eq_true_of {ident : String → DevIno} {up : List (DevIno × String)}
    {vs : List WValue} {i : DevIno} (hi : i ∈ refIds ident vs)
    (h : alookup up i = none) : anyMissingB ident up vs = true := by
  cases hb : anyMissingB ident up vs with
  | true => rfl
  | false =>
    have := (anyMissingB_eq_false_iff ident up vs).mp hb i hi
    rw [h] at this
    simp at this

theorem cache_put_uploaded (cfg : PluginConfig) (ident : String → DevIno) (key : String)
    (outputs : List WValue) (st : PState) :
    (cache_put cfg ident key outputs st).uploaded = st.uploaded := by
  rw [cache_put]
  split
  · split <;> rfl
  · rfl

theorem cache_put_cached (cfg : PluginConfig) (ident : String → DevIno) (key : String)
    (outputs : List WValue) (st : PState) :
    (cache_put cfg ident key outputs st).cached = st.cached := by
  rw [cache_put]
  split
  · split <;> rfl
  · rfl

theorem cache_put_of_missing {cfg : PluginConfig} {ident : String → DevIno} {key : String}
    {outputs : List WValue} {st : PState}
    (h : anyMissingB ident st.uploaded outputs = true) :
    cache_put cfg ident key outputs st = st := by
  rw [cache_put]
  split
  · rw [if_pos]
    rw [cacheRemap_fst, h, Bool.or_true]
  · rfl

theorem cache_put_skip {cfg : PluginConfig} {ident : String → DevIno} {key : String}
    {outputs : List WValue} {st : PState}
    (h : ¬(cfg.callCachePut = true ∧ cfg.callCacheBackend = s3BackendName)) :
    cache_put cfg ident key outputs st = st := by
  rw [cache_put, if_neg h]

theorem cache_put_of_resolved {cfg : PluginConfig} {ident : String → DevIno} {key : String}
    {outputs : List WValue} {st : PState}
    (hput : cfg.callCachePut = true) (hback : cfg.callCacheBackend = s3BackendName)
    (h : anyMissingB ident st.uploaded outputs = false) :
    cache_put cfg ident key outputs st =
      { st with published := st.published ++
          [(manifestUri cfg key, resolveAll ident st.uploaded outputs)] } := by
  rw [cache_put, if_pos ⟨hput, hback⟩, cacheRemap_of_not_missing ident st.uploaded outputs h]
  simp

theorem alookup_foldRegister (ident : String → DevIno)
    (payload : String × List WValue) :
    ∀ (vs : List WValue) (c : List (DevIno × (String × List WValue))) (i : DevIno),
      alookup (vs.foldl (fun c v =>
          match v.pathRef with
          | some p => (ident p, payload) :: c
          | none => c) c) i =
        if i ∈ refIds ident vs then some payload else alookup c i := by
  intro vs
  induction vs with
  | nil => intro c i; simp [refIds]
  | cons v vs ih =>
    intro c i
    cases hv : v.pathRef with
    | none =>
      rw [List.foldl_cons, refIds_cons_none hv]
      simp only [hv]
      exact ih c i
    | some p =>
      rw [List.foldl_cons, refIds_cons_some hv]
      simp only [hv]
      rw [ih ((ident p, payload) :: c) i, alookup_cons]
      by_cases hmem : i ∈ refIds ident vs
      · rw [if_pos hmem, if_pos (List.mem_cons_of_mem _ hmem)]
      · by_cases hip : i = ident p
        · rw [if_neg hmem, if_pos hip, if_pos (by rw [hip]; exact List.mem_cons_self _ _)]
        · rw [if_neg hmem, if_neg hip, if_neg (by
            intro hc
            rcases List.mem_cons.mp hc with h1 | h2
            · exact hip h1
            · exact hmem h2)]

theorem alookup_registerRefs (ident : String → DevIno) (key : String)
    (outputs : List WValue) (c : List (DevIno × (String × List WValue))) (i : DevIno) :
    alookup (registerRefs ident key outputs c) i =
      if i ∈ refIds ident outputs then some (key, outputs) else alookup c i :=
  alookup_foldRegister ident (key, outputs) outputs c i

theorem upload_file_zero (cfg : PluginConfig) (ident : String → DevIno)
    (fn uri : String) (st : PState) :
    upload_file cfg ident 0 fn uri st =
      match alookup st.cached (ident fn) with
      | some kv => .ok (cache_put cfg ident kv.1 kv.2
          { st with uploaded := (ident fn, uri) :: st.uploaded })
      | none => .ok { st with uploaded := (ident fn, uri) :: st.uploaded } := rfl

theorem upload_file_zero_uploaded {cfg : PluginConfig} {ident : String → DevIno}
    {fn uri : String} {st st' : PState}
    (h : upload_file cfg ident 0 fn uri st = .ok st') :
    st'.uploaded = (ident fn, uri) :: st.uploaded := by
  rw [upload_file_zero] at h
  cases hl : alookup st.cached (ident fn) with
  | none =>
    rw [hl] at h
    injection h with h2
    rw [← h2]
  | some kv =>
    rw [hl] at h
    injection h with h2
    rw [← h2, cache_put_uploaded]

theorem upload_file_zero_cached {cfg : PluginConfig} {ident : String → DevIno}
    {fn uri : String} {st st' : PState}
    (h : upload_file cfg ident 0 fn uri st = .ok st') :
    st'.cached = st.cached := by
  rw [upload_file_zero] at h
  cases hl : alookup st.cached (ident fn) with
  | none =>
    rw [hl] at h
    injection h with h2
    rw [← h2]
  | some kv =>
    rw [hl] at h
    injection h with h2
    rw [← h2, cache_put_cached]

/-- Claim C2 (amended): when the Uploader records an identity that
has a pending registry entry, the entry is retrieved and the cache
insert is re-attempted at the moment of the ledger write, but the
entry is NOT removed: the registry is unchanged and still contains
that identity afterwards. -/
theorem c2_registry_entry_not_removed (cfg : PluginConfig) (ident : String → DevIno)
    (fn uri key : String) (outputs : List WValue) (st : PState)
    (hlook : alookup st.cached (ident fn) = some (key, outputs)) :
    upload_file cfg ident 0 fn uri st =
      .ok (cache_put cfg ident key outputs
        { st with uploaded := (ident fn, uri) :: st.uploaded }) ∧
    ∀ st', upload_file cfg ident 0 fn uri st = .ok st' →
      st'.cached = st.cached ∧ alookup st'.cached (ident fn) = some (key, outputs) := by
  have h1 : upload_file cfg ident 0 fn uri st =
      .ok (cache_put cfg ident key outputs
        { st with uploaded := (ident fn, uri) :: st.uploaded }) := by
    rw [upload_file_zero, hlook]
  refine ⟨h1, ?_⟩
  intro st' h2
  have hc := upload_file_zero_cached h2
  exact ⟨hc, by rw [hc, hlook]⟩

/-- Claim C2 counterexample: a successful upload of a file whose
identity (1,0) has a pending registry entry leaves that entry in the
registry (the final state's `cached` still holds it), contradicting
the claim that the entry is removed the moment the ledger write
occurs. -/
theorem c2_counterexample :
    upload_file cfgOn identC 0 ("a") ("s3://u/a") stC2 =
      .ok { uploaded := [((1, 0), ("s3://u/a"))],
            cached := [((1, 0), ("k", [WValue.file ("a")]))],
            published := [(("s3://u/cache/k.json"), [WValue.file ("s3://u/a")])] } := rfl

theorem c2_witness :
    alookup stC2.cached (identC ("a")) = some (("k"), [WValue.file ("a")]) ∧
    (upload_file cfgOn identC 0 ("a") ("s3://u/a") stC2 =
      .ok (cache_put cfgOn identC ("k") [WValue.file ("a")]
        { stC2 with uploaded := (identC ("a"), ("s3://u/a")) :: stC2.uploaded }) ∧
    ∀ st', upload_file cfgOn identC 0 ("a") ("s3://u/a") stC2 = .ok st' →
      st'.cached = stC2.cached ∧
      alookup st'.cached (identC ("a")) = some (("k"), [WValue.file ("a")])) :=
  ⟨rfl, c2_registry_entry_not_removed cfgOn identC ("a") ("s3://u/a") ("k")
    [WValue.file ("a")] stC2 rfl⟩

/-- Claim C3 (amended): during cache-insert with call-cache writes
enabled, a Pending Cache-Insert Registry entry is created for EVERY
referenced file/directory value, whether or not its identity is
already in the Upload Ledger; and when every referenced identity is
in the ledger (and this plugin's backend is configured) the
published manifest remaps each value to its recorded URI. -/
theorem c3_register_all (cfg : PluginConfig) (ident : String → DevIno)
    (key : String) (outputs : List WValue) (st : PState)
    (hput : cfg.callCachePut = true) :
    (∀ i ∈ refIds ident outputs,
       alookup (callCachePutMethod cfg ident key outputs st).cached i = some (key, outputs)) ∧
    (anyMissingB ident st.uploaded outputs = false →
     cfg.callCacheBackend = s3BackendName →
       (callCachePutMethod cfg ident key outputs st).published =
         st.published ++ [(manifestUri cfg key, resolveAll ident st.uploaded outputs)]) := by
  have hm : callCachePutMethod cfg ident key outputs st =
      cache_put cfg ident key outputs
        { st with cached := registerRefs ident key outputs st.cached } := by
    rw [callCachePutMethod, if_pos hput]
  constructor
  · intro i hi
    rw [hm, cache_put_cached]
    show alookup (registerRefs ident key outputs st.cached) i = _
    rw [alookup_registerRefs, if_pos hi]
  · intro hres hback
    have hres' : anyMissingB ident
        (PState.uploaded { st with cached := registerRefs ident key outputs st.cached })
        outputs = false := hres
    rw [hm, cache_put_of_resolved hput hback hres']

/-- Claim C3 counterexample: with identity (1,0) already recorded in
the Upload Ledger, a cache-insert still creates a Pending
Cache-Insert Registry entry for it, contradicting the claim that no
registry entry is created for already-resolved values. -/
theorem c3_counterexample :
    alookup stC3.uploaded (identC ("a")) = some ("s3://u/a") ∧
    alookup (callCachePutMethod cfgOn identC ("k") [WValue.file ("a")] stC3).cached
        (identC ("a")) = some (("k"), [WValue.file ("a")]) := ⟨rfl, rfl⟩

theorem c3_witness :
    cfgOn.callCachePut = true ∧
    ((∀ i ∈ refIds identC [WValue.file ("a")],
       alookup (callCachePutMethod cfgOn identC ("k") [WValue.file ("a")] stC3).cached i =
         some (("k"), [WValue.file ("a")])) ∧
    (anyMissingB identC stC3.uploaded [WValue.file ("a")] = false →
     cfgOn.callCacheBackend = s3BackendName →
       (callCachePutMethod cfgOn identC ("k") [WValue.file ("a")] stC3).published =
         stC3.published ++
           [(manifestUri cfgOn ("k"), resolveAll identC stC3.uploaded [WValue.file ("a")])])) :=
  ⟨rfl, c3_register_all cfgOn identC ("k") [WValue.file ("a")] stC3 rfl⟩

/-- Claim C4 (code bug): rewriting a workflow output manifest that
references a file absent from the Upload Ledger does NOT keep the
local path and continue; after logging one warning the rewriter
evaluates the enclosing function's local `fn`, which is unbound at
that point, and the traversal aborts with the resulting NameError.
Evaluated here at the failing input: one file output, empty ledger. -/
theorem c4_unresolved_output_crashes :
    rewriteEnvPathsS3 identC [] [WValue.file ("/tmp/x")] =
      (1, .error RewriteError.unboundLocalFn) := rfl

/-- Claim C5: a non-zero exit status of the external copy operation
makes `upload_file` raise a fatal runtime error whose message
contains the invoked command line, and no Upload Ledger entry is
written for that file (no state is returned at all). -/
theorem c5_copy_failure_fatal (cfg : PluginConfig) (ident : String → DevIno)
    (returncode : Nat) (fn uri : String) (st : PState) (h : returncode ≠ 0) :
    upload_file cfg ident returncode fn uri st =
      .error (("failed: ") ++ s3cpCmd fn uri) ∧
    ∀ st', upload_file cfg ident returncode fn uri st ≠ .ok st' := by
  have h1 : upload_file cfg ident returncode fn uri st =
      .error (("failed: ") ++ s3cpCmd fn uri) := by
    rw [upload_file, s3cp, if_pos h]
  refine ⟨h1, ?_⟩
  intro st' hc
  rw [h1] at hc
  exact Except.noConfusion hc

theorem c5_witness :
    (1 ≠ 0) ∧
    (upload_file cfgOn identC 1 ("f") ("s3://u/f") pst0 =
      .error (("failed: ") ++ s3cpCmd ("f") ("s3://u/f")) ∧
    ∀ st', upload_file cfgOn identC 1 ("f") ("s3://u/f") pst0 ≠ .ok st') :=
  ⟨by decide, c5_copy_failure_fatal cfgOn identC 1 ("f") ("s3://u/f") pst0 (by decide)⟩

/-- Claim C8: two paths that resolve to the same underlying file
object (one a hardlink, one a symlink) yield the same (device,
inode) identity, so after the file is uploaded once under either
path, looking up either path's identity in the Upload Ledger
returns the same recorded URI. -/
theorem c8_same_identity (fs : FS) (p q : String) (cfg : PluginConfig) (uri : String)
    (st st' : PState)
    (hsame : fs.fileObject (fs.realpath p) = fs.fileObject (fs.realpath q))
    (hup : upload_file cfg (inode fs) 0 p uri st = .ok st') :
    inode fs p = inode fs q ∧
    alookup st'.uploaded (inode fs p) = some uri ∧
    alookup st'.uploaded (inode fs q) = some uri := by
  have heq : inode fs p = inode fs q := by
    rw [inode, inode, FS.stat, FS.stat, hsame]
  have hupl : st'.uploaded = (inode fs p, uri) :: st.uploaded :=
    upload_file_zero_uploaded hup
  refine ⟨heq, ?_, ?_⟩
  · rw [hupl, alookup_cons, if_pos rfl]
  · rw [hupl, alookup_cons, if_pos heq.symm]

theorem c8_witness :
    fsW.fileObject (fsW.realpath ("hard")) = fsW.fileObject (fsW.realpath ("sym")) ∧
    upload_file cfgOn (inode fsW) 0 ("hard") ("s3://u/h") pst0 =
      .ok { uploaded := [((1, 48), ("s3://u/h"))], cached := [], published := [] } ∧
    (inode fsW ("hard") = inode fsW ("sym") ∧
     alookup [((1, 48), ("s3://u/h"))] (inode fsW ("hard")) = some ("s3://u/h") ∧
     alookup [((1, 48), ("s3://u/h"))] (inode fsW ("sym")) = some ("s3://u/h")) :=
  ⟨rfl, rfl, c8_same_identity fsW ("hard") ("sym") cfgOn ("s3://u/h") pst0
    { uploaded := [((1, 48), ("s3://u/h"))], cached := [], published := [] } rfl rfl⟩

/-- Claim C10: the two gates on cache-insert are asymmetric. With
call-cache writes enabled, `CallCache.put` registers every
referenced identity in the Pending Cache-Insert Registry regardless
of the configured backend marker; but with a backend marker
different from this plugin's, neither the insert nor any later
upload ever publishes a manifest. -/
theorem c10_gate_asymmetry (cfg : PluginConfig) (ident : String → DevIno)
    (key : String) (outputs : List WValue) (st : PState)
    (fn uri : String) (st2 : PState)
    (hput : cfg.callCachePut = true)
    (hback : cfg.callCacheBackend ≠ s3BackendName) :
    (∀ i ∈ refIds ident outputs,
        alookup (callCachePutMethod cfg ident key outputs st).cached i = some (key, outputs)) ∧
    (callCachePutMethod cfg ident key outputs st).published = st.published ∧
    (∀ st', upload_file cfg ident 0 fn uri st2 = .ok st' → st'.published = st2.published) := by
  have hskip : ¬(cfg.callCachePut = true ∧ cfg.callCacheBackend = s3BackendName) :=
    fun hc => hback hc.2
  have hm : callCachePutMethod cfg ident key outputs st =
      { st with cached := registerRefs ident key outputs st.cached } := by
    rw [callCachePutMethod, if_pos hput, cache_put_skip hskip]
  refine ⟨?_, ?_, ?_⟩
  · intro i hi
    rw [hm]
    show alookup (registerRefs ident key outputs st.cached) i = _
    rw [alookup_registerRefs, if_pos hi]
  · rw [hm]
  · intro st' h
    rw [upload_file_zero] at h
    cases hl : alookup st2.cached (ident fn) with
    | none =>
      rw [hl] at h
      injection h with h2
      rw [← h2]
    | some kv =>
      rw [hl] at h
      injection h with h2
      rw [← h2, cache_put_skip hskip]

theorem c10_witness :
    cfgOtherBackend.callCachePut = true ∧
    cfgOtherBackend.callCacheBackend ≠ s3BackendName ∧
    ((∀ i ∈ refIds identC [WValue.file ("a")],
        alookup (callCachePutMethod cfgOtherBackend identC ("k") [WValue.file ("a")] pst0).cached i =
          some (("k"), [WValue.file ("a")])) ∧
    (callCachePutMethod cfgOtherBackend identC ("k") [WValue.file ("a")] pst0).published =
      pst0.published ∧
    (∀ st', upload_file cfgOtherBackend identC 0 ("a") ("s3://u/a") stC2 = .ok st' →
      st'.published = stC2.published)) :=
  ⟨rfl, by decide, c10_gate_asymmetry cfgOtherBackend identC ("k") [WValue.file ("a")] pst0
    ("a") ("s3://u/a") stC2 rfl (by decide)⟩

/-- Claim C6 (amended): cache lookup delegates to the local cache
store's own lookup with the same input/output-type constraints but a
DERIVED key (the get-prefix path joined with "cache" and key.json,
first character dropped — the same key under which the manifest was
just downloaded); the local store's result is the final result, and
the remote tier only pre-fetches the manifest into the local store
beforehand. -/
theorem c6_delegation_derived_key {α β γ : Type} (cfg : PluginConfig)
    (download : String → String → DownloadResult)
    (superGet : List (String × String) → String → α → β → Option γ)
    (store : List (String × String)) (key0 : String) (inputs : α) (otypes : β) :
    (∀ content, download (getBucket cfg) (getDerivedKey cfg key0) = .ok content →
      callCacheGet cfg download superGet store key0 inputs otypes =
        .ok (superGet ((localCachePath cfg key0, content) :: store)
          (getDerivedKey cfg key0) inputs otypes)) ∧
    (download (getBucket cfg) (getDerivedKey cfg key0) = .clientError ("404") →
      callCacheGet cfg download superGet store key0 inputs otypes =
        .ok (superGet store (getDerivedKey cfg key0) inputs otypes)) := by
  constructor
  · intro content h
    unfold callCacheGet
    rw [h]
  · intro h
    unfold callCacheGet
    rw [h]
    simp

/-- Claim C6 counterexample: with the get-prefix `s3://b/p` and a
remote miss, the lookup does NOT delegate with the original key "K"
(a base-class lookup that hits exactly on "K" yields nothing,
because the delegated key is the derived one). -/
theorem c6_counterexample :
    callCacheGet cfgGet dl404 superGetKeyed [] ("K") () () ≠
      .ok (superGetKeyed [] ("K") () ()) := by
  intro h
  have h' : (Except.ok (none : Option Nat) : Except String (Option Nat)) =
      .ok (some 0) := h
  injection h' with h2
  exact Option.noConfusion h2

theorem c6_witness :
    (callCacheGet cfgGet dlOk superGetNone [] ("K") () () =
      .ok (superGetNone [(localCachePath cfgGet ("K"), ("manifest"))]
        (getDerivedKey cfgGet ("K")) () ())) ∧
    (callCacheGet cfgGet dl404 superGetNone [] ("K") () () =
      .ok (superGetNone [] (getDerivedKey cfgGet ("K")) () ())) :=
  ⟨(c6_delegation_derived_key cfgGet dlOk superGetNone [] ("K") () ()).1 ("manifest") rfl,
   (c6_delegation_derived_key cfgGet dl404 superGetNone [] ("K") () ()).2 rfl⟩

/-- Claim C7: during cache lookup, a "404" (not-found) ClientError
from the remote download is not an error — the lookup proceeds to
the local tier, whose result (hit or miss) stands; any other
ClientError code propagates out of the lookup as a fatal error. -/
theorem c7_remote_miss_vs_error {α β γ : Type} (cfg : PluginConfig)
    (download : String → String → DownloadResult)
    (superGet : List (String × String) → String → α → β → Option γ)
    (store : List (String × String)) (key0 : String) (inputs : α) (otypes : β) :
    (download (getBucket cfg) (getDerivedKey cfg key0) = .clientError ("404") →
      callCacheGet cfg download superGet store key0 inputs otypes =
        .ok (superGet store (getDerivedKey cfg key0) inputs otypes)) ∧
    (∀ code, download (getBucket cfg) (getDerivedKey cfg key0) = .clientError code →
      code ≠ ("404") →
      callCacheGet cfg download superGet store key0 inputs otypes = .error code) := by
  constructor
  · intro h
    unfold callCacheGet
    rw [h]
    simp
  · intro code h hne
    unfold callCacheGet
    rw [h]
    simp [hne]

theorem c7_witness :
    (callCacheGet cfgGet dl404 superGetKeyed [] ("K") () () =
      .ok (superGetKeyed [] (getDerivedKey cfgGet ("K")) () ())) ∧
    (callCacheGet cfgGet dl500 superGetKeyed [] ("K") () () = .error ("500")) :=
  ⟨(c7_remote_miss_vs_error cfgGet dl404 superGetKeyed [] ("K") () ()).1 rfl,
   (c7_remote_miss_vs_error cfgGet dl500 superGetKeyed [] ("K") () ()).2 ("500") rfl
     (by decide)⟩

theorem notHidden_of_pyIsDigit {s : String} (h : pyIsDigit s = true) :
    notHidden s = true := by
  unfold pyIsDigit at h
  rw [Bool.and_eq_true] at h
  obtain ⟨h1, h2⟩ := h
  unfold notHidden
  cases hd : s.data with
  | nil => rw [hd] at h1; simp at h1
  | cons c cs =>
    rw [hd] at h2
    rw [List.all_cons, Bool.and_eq_true] at h2
    simp only [List.head?_cons]
    split
    · rename_i hh
      have hc : c = '.' := by injection hh
      rw [hc] at h2
      exact absurd h2.1 (by decide)
    · rfl

theorem mapIndexUploads_mk (s3pfx absOut : String) :
    ∀ idx : List (String × String), (∀ x ∈ idx, notHidden x.2 = true) →
      mapIndexUploads s3pfx absOut (idx.map mkIndexEntry) =
        some (idx.map (fun x => (pathJoin (pathJoin absOut x.1) x.2, pathJoin s3pfx x.2))) := by
  intro idx
  induction idx with
  | nil => intro _; rfl
  | cons x xs ih =>
    intro h
    have hx : notHidden x.2 = true := h x (List.mem_cons_self _ _)
    have hf : List.filter notHidden [x.2] = [x.2] := by
      rw [List.filter_eq_self]
      intro a ha
      rw [List.mem_singleton] at ha
      rw [ha]
      exact hx
    rw [List.map_cons]
    show (match (mkIndexEntry x).children.filter notHidden with
      | [fn] => (mapIndexUploads s3pfx absOut (xs.map mkIndexEntry)).map
          (fun rest =>
            (pathJoin (pathJoin absOut (mkIndexEntry x).name) fn, pathJoin s3pfx fn) :: rest)
      | _ => none) = _
    show (match List.filter notHidden [x.2] with
      | [fn] => (mapIndexUploads s3pfx absOut (xs.map mkIndexEntry)).map
          (fun rest => (pathJoin (pathJoin absOut x.1) fn, pathJoin s3pfx fn) :: rest)
      | _ => none) = _
    rw [hf, ih (fun a ha => h a (List.mem_cons_of_mem _ ha))]
    rw [List.map_cons]
    rfl

theorem arrayCase_mk (s3pfx absOut : String) (idx : List (String × String))
    (hidx : ∀ x ∈ idx, pyIsDigit x.1 = true ∧ notHidden x.2 = true) :
    arrayCase s3pfx absOut (idx.map mkIndexEntry) =
      .ok { dirRecord := none,
            uploads := idx.map (fun x =>
              (pathJoin (pathJoin absOut x.1) x.2, pathJoin s3pfx x.2)) } := by
  have hall : (idx.map mkIndexEntry).all (fun e => pyIsDigit e.name) = true := by
    rw [List.all_eq_true]
    intro e he
    rw [List.mem_map] at he
    obtain ⟨x, hx, rfl⟩ := he
    exact (hidx x hx).1
  unfold arrayCase
  rw [if_neg (by rw [hall]; simp)]
  rw [mapIndexUploads_mk s3pfx absOut idx (fun x hx => (hidx x hx).2)]

theorem processOutput_array (s3pfx absOut : String) (idx : List (String × String))
    (hidx : ∀ x ∈ idx, pyIsDigit x.1 = true ∧ notHidden x.2 = true)
    (hne : idx ≠ []) :
    processOutput s3pfx absOut (idx.map mkIndexEntry) =
      arrayCase s3pfx absOut (idx.map mkIndexEntry) := by
  have hf : (idx.map mkIndexEntry).filter (fun e => notHidden e.name) =
      idx.map mkIndexEntry := by
    rw [List.filter_eq_self]
    intro e he
    rw [List.mem_map] at he
    obtain ⟨x, hx, rfl⟩ := he
    exact notHidden_of_pyIsDigit (hidx x hx).1
  unfold processOutput
  rw [hf]
  cases idx with
  | nil => exact absurd rfl hne
  | cons x xs =>
    cases xs with
    | nil => rfl
    | cons y ys => rfl

/-- Claim C9: destination URIs are determined by output shape. For a
directory-valued output (a single symlinked directory `dname`), the
directory itself is recorded with URI `prefix/dname/` (trailing
slash) and every contained file at relative path `rel` is uploaded
to `prefix/dname/rel` (its path relative to the output
subdirectory); for an array-valued output, each file `fn` inside a
numerically-named index directory is uploaded to `prefix/fn`, the
index directory not appearing in the destination. -/
theorem c9_destination_uris (s3pfx absOutDir dname : String) (files : List String)
    (absOutArr : String) (idx : List (String × String))
    (hdn : notHidden dname = true)
    (hidx : ∀ x ∈ idx, pyIsDigit x.1 = true ∧ notHidden x.2 = true)
    (hne : idx ≠ []) :
    processOutput s3pfx absOutDir
        [{ name := dname, kind := EntryKind.symlinkDir, walkFiles := files, children := [] }] =
      .ok { dirRecord := some (pathJoin absOutDir dname, pathJoin s3pfx dname ++ ("/")),
            uploads := files.map (fun rel =>
              (pathJoin (pathJoin absOutDir dname) rel,
               pathJoin s3pfx (pathJoin dname rel))) } ∧
    processOutput s3pfx absOutArr (idx.map mkIndexEntry) =
      .ok { dirRecord := none,
            uploads := idx.map (fun x =>
              (pathJoin (pathJoin absOutArr x.1) x.2, pathJoin s3pfx x.2)) } := by
  constructor
  · unfold processOutput
    have hf : List.filter (fun (e : DirEntry) => notHidden e.name)
        ([{ name := dname, kind := EntryKind.symlinkDir, walkFiles := files,
            children := [] }] : List DirEntry) =
        ([{ name := dname, kind := EntryKind.symlinkDir, walkFiles := files,
            children := [] }] : List DirEntry) := by
      rw [List.filter_eq_self]
      intro e he
      rw [List.mem_singleton] at he
      rw [he]
      exact hdn
    rw [hf]
    rfl
  · rw [processOutput_array s3pfx absOutArr idx hidx hne,
      arrayCase_mk s3pfx absOutArr idx hidx]

theorem c9_witness :
    notHidden ("alignments") = true ∧
    (∀ x ∈ [(("0"), ("r1.fq")), (("1"), ("r2.fq"))],
      pyIsDigit x.1 = true ∧ notHidden x.2 = true) ∧
    (processOutput ("s3://p") ("out/bam")
        [{ name := ("alignments"), kind := EntryKind.symlinkDir,
           walkFiles := [("a.bam"), ("b.bam")], children := [] }] =
      .ok { dirRecord := some (pathJoin ("out/bam") ("alignments"),
              pathJoin ("s3://p") ("alignments") ++ ("/")),
            uploads := [("a.bam"), ("b.bam")].map (fun rel =>
              (pathJoin (pathJoin ("out/bam") ("alignments")) rel,
               pathJoin ("s3://p") (pathJoin ("alignments") rel))) } ∧
    processOutput ("s3://p") ("out/reads")
        ([(("0"), ("r1.fq")), (("1"), ("r2.fq"))].map mkIndexEntry) =
      .ok { dirRecord := none,
            uploads := [(("0"), ("r1.fq")), (("1"), ("r2.fq"))].map (fun x =>
              (pathJoin (pathJoin ("out/reads") x.1) x.2, pathJoin ("s3://p") x.2)) }) :=
  ⟨by decide, by decide,
   c9_destination_uris ("s3://p") ("out/bam") ("alignments") [("a.bam"), ("b.bam")]
     ("out/reads") [(("0"), ("r1.fq")), (("1"), ("r2.fq"))] (by decide) (by decide)
     (by decide)⟩

theorem eventIds_cons (ident : String → DevIno) (e : String × String)
    (es : List (String × String)) :
    eventIds ident (e :: es) = ident e.1 :: eventIds ident es := rfl

theorem runUploads_missing (cfg : PluginConfig) (ident : String → DevIno) (key : String)
    (outputs : List WValue)
    (hput : cfg.callCachePut = true) (hback : cfg.callCacheBackend = s3BackendName) :
    ∀ (es : List (String × String)) (st : PState),
      es ≠ [] →
      (eventIds ident es).Nodup →
      (∀ i ∈ eventIds ident es, i ∈ refIds ident outputs) →
      (∀ i ∈ eventIds ident es, alookup st.cached i = some (key, outputs)) →
      (∀ i ∈ eventIds ident es, alookup st.uploaded i = none) →
      (∀ i ∈ refIds ident outputs,
        (alookup st.uploaded i).isSome = true ∨ i ∈ eventIds ident es) →
      ∃ stF, runUploads cfg ident es st = .ok stF ∧
        stF.cached = st.cached ∧
        stF.published = st.published ++
          [(manifestUri cfg key, resolveAll ident stF.uploaded outputs)] ∧
        (∀ i ∈ refIds ident outputs, (alookup stF.uploaded i).isSome = true) ∧
        (∀ pre, pre <+: es → pre.length < es.length →
          ∃ stP, runUploads cfg ident pre st = .ok stP ∧ stP.published = st.published) := by
  intro es
  induction es with
  | nil => intro st h; exact absurd rfl h
  | cons e es ih =>
    intro st _ hnodup hrefs hcached hmiss hcover
    have hino : ident e.1 ∈ eventIds ident (e :: es) := by
      rw [eventIds_cons]
      exact List.mem_cons_self _ _
    have hlook : alookup st.cached (ident e.1) = some (key, outputs) := hcached _ hino
    have hstep : upload_file cfg ident 0 e.1 e.2 st =
        .ok (cache_put cfg ident key outputs
          { st with uploaded := (ident e.1, e.2) :: st.uploaded }) := by
      rw [upload_file_zero, hlook]
    cases es with
    | nil =>
      have hres : anyMissingB ident ((ident e.1, e.2) :: st.uploaded) outputs = false := by
        rw [anyMissingB_eq_false_iff]
        intro i hi
        rcases hcover i hi with hs | hm
        · exact isSome_alookup_cons _ _ hs
        · rw [eventIds_cons] at hm
          have hie : i = ident e.1 := by
            rcases List.mem_cons.mp hm with h1 | h2
            · exact h1
            · exact absurd h2 (List.not_mem_nil i)
          rw [alookup_cons, if_pos hie]
          rfl
      have hres' : anyMissingB ident
          (PState.uploaded { st with uploaded := (ident e.1, e.2) :: st.uploaded })
          outputs = false := hres
      have hcp := @cache_put_of_resolved cfg ident key outputs
        { st with uploaded := (ident e.1, e.2) :: st.uploaded } hput hback hres'
      refine ⟨cache_put cfg ident key outputs
        { st with uploaded := (ident e.1, e.2) :: st.uploaded }, ?_, ?_, ?_, ?_, ?_⟩
      · show (match upload_file cfg ident 0 e.1 e.2 st with
          | .error err => Except.error err
          | .ok st' => runUploads cfg ident [] st') = _
        rw [hstep]
        rfl
      · rw [cache_put_cached]
      · rw [hcp]
      · rw [cache_put_uploaded]
        show ∀ i ∈ refIds ident outputs,
          (alookup ((ident e.1, e.2) :: st.uploaded) i).isSome = true
        exact (anyMissingB_eq_false_iff ident _ outputs).mp hres
      · intro pre hpre hlen
        have hpre0 : pre = [] := List.eq_nil_of_length_eq_zero (Nat.lt_one_iff.mp hlen)
        rw [hpre0]
        exact ⟨st, rfl, rfl⟩
    | cons e2 es2 =>
      have hi2 : ident e2.1 ∈ eventIds ident (e :: e2 :: es2) := by
        rw [eventIds_cons, eventIds_cons]
        exact List.mem_cons_of_mem _ (List.mem_cons_self _ _)
      have hnodup' : ident e.1 ∉ eventIds ident (e2 :: es2) ∧
          (eventIds ident (e2 :: es2)).Nodup := by
        rw [eventIds_cons] at hnodup
        exact List.nodup_cons.mp hnodup
      have hne12 : ident e2.1 ≠ ident e.1 := by
        intro hcontra
        apply hnodup'.1
        rw [← hcontra]
        rw [eventIds_cons]
        exact List.mem_cons_self _ _
      have hmiss1 : anyMissingB ident ((ident e.1, e.2) :: st.uploaded) outputs = true := by
        apply anyMissingB_eq_true_of (hrefs _ hi2)
        rw [alookup_cons, if_neg hne12]
        exact hmiss _ hi2
      have hmiss1' : anyMissingB ident
          (PState.uploaded { st with uploaded := (ident e.1, e.2) :: st.uploaded })
          outputs = true := hmiss1
      have hstep2 : upload_file cfg ident 0 e.1 e.2 st =
          .ok { st with uploaded := (ident e.1, e.2) :: st.uploaded } := by
        rw [hstep, cache_put_of_missing hmiss1']
      obtain ⟨stF, hrunF, hcachedF, hpubF, hresF, hpreF⟩ :=
        ih { st with uploaded := (ident e.1, e.2) :: st.uploaded }
          (by intro h; exact List.noConfusion h)
          hnodup'.2
          (fun i hi => hrefs i (by rw [eventIds_cons]; exact List.mem_cons_of_mem _ hi))
          (fun i hi => hcached i (by rw [eventIds_cons]; exact List.mem_cons_of_mem _ hi))
          (fun i hi => by
            have hie : i ≠ ident e.1 := by
              intro hcontra
              apply hnodup'.1
              rw [← hcontra]
              exact hi
            show alookup ((ident e.1, e.2) :: st.uploaded) i = none
            rw [alookup_cons, if_neg hie]
            exact hmiss i (by rw [eventIds_cons]; exact List.mem_cons_of_mem _ hi))
          (fun i hi => by
            rcases hcover i hi with hs | hm
            · exact Or.inl (isSome_alookup_cons _ _ hs)
            · rw [eventIds_cons] at hm
              rcases List.mem_cons.mp hm with h1 | h2
              · refine Or.inl ?_
                show (alookup ((ident e.1, e.2) :: st.uploaded) i).isSome = true
                rw [alookup_cons, if_pos h1]
                rfl
              · exact Or.inr h2)
      refine ⟨stF, ?_, ?_, ?_, hresF, ?_⟩
      · show (match upload_file cfg ident 0 e.1 e.2 st with
          | .error err => Except.error err
          | .ok st' => runUploads cfg ident (e2 :: es2) st') = .ok stF
        rw [hstep2]
        exact hrunF
      · exact hcachedF
      · exact hpubF
      · intro pre hpre hlen
        cases pre with
        | nil => exact ⟨st, rfl, rfl⟩
        | cons p ps =>
          obtain ⟨hpe, hps⟩ := List.cons_prefix_cons.mp hpre
          have hlen' : ps.length < (e2 :: es2).length := by
            rw [List.length_cons, List.length_cons] at hlen
            exact Nat.lt_of_succ_lt_succ hlen
          obtain ⟨stP, hrunP, hpubP⟩ := hpreF ps hps hlen'
          refine ⟨stP, ?_, hpubP⟩
          rw [hpe]
          show (match upload_file cfg ident 0 e.1 e.2 st with
            | .error err => Except.error err
            | .ok st' => runUploads cfg ident ps st') = .ok stP
          rw [hstep2]
          exact hrunP

theorem mem_missingIds (ident : String → DevIno) (up : List (DevIno × String))
    (outputs : List WValue) (i : DevIno) :
    i ∈ missingIds ident up outputs ↔
      (i ∈ refIds ident outputs ∧ alookup up i = none) := by
  rw [missingIds, List.mem_dedup, List.mem_filter, Option.isNone_iff_eq_none]

/-- Claim C1 (amended): a cache-insert whose output bindings
reference at least one identity absent from the Upload Ledger
publishes nothing at insert time. When the missing identities are
all recorded by the Uploader's per-file `upload_file` path — each
exactly once, in ANY order — no manifest is published before the
last such recording, and at the moment of the last one exactly one
manifest is published, all of whose file/directory values are
resolved to their ledger URIs. A directory identity recorded by the
Uploader's direct directory-record write, by contrast, only adds
the ledger entry: it consults no registry and publishes nothing, so
an insert whose last missing identity is recorded that way is never
published. -/
theorem c1_deferred_insert_publishes_once (cfg : PluginConfig) (ident : String → DevIno)
    (key : String) (outputs : List WValue) (st0 : PState) (events : List (String × String))
    (hput : cfg.callCachePut = true)
    (hback : cfg.callCacheBackend = s3BackendName)
    (hmiss : missingIds ident st0.uploaded outputs ≠ [])
    (hperm : (eventIds ident events).Perm (missingIds ident st0.uploaded outputs)) :
    (callCachePutMethod cfg ident key outputs st0).published = st0.published ∧
    (∃ stF, runUploads cfg ident events (callCachePutMethod cfg ident key outputs st0) =
        .ok stF ∧
      stF.published = st0.published ++
        [(manifestUri cfg key, resolveAll ident stF.uploaded outputs)] ∧
      ∀ i ∈ refIds ident outputs, (alookup stF.uploaded i).isSome = true) ∧
    (∀ pre, pre <+: events → pre.length < events.length →
      ∃ stP, runUploads cfg ident pre (callCachePutMethod cfg ident key outputs st0) =
          .ok stP ∧
        stP.published = st0.published) ∧
    (∀ dirPath uri stD, (recordDirEntry ident dirPath uri stD).published = stD.published ∧
      (recordDirEntry ident dirPath uri stD).cached = stD.cached ∧
      (recordDirEntry ident dirPath uri stD).uploaded = (ident dirPath, uri) :: stD.uploaded) := by
  obtain ⟨i0, hi0⟩ := List.exists_mem_of_ne_nil _ hmiss
  have hi0' := (mem_missingIds ident st0.uploaded outputs i0).mp hi0
  have hany : anyMissingB ident st0.uploaded outputs = true :=
    anyMissingB_eq_true_of hi0'.1 hi0'.2
  have hany' : anyMissingB ident
      (PState.uploaded { st0 with cached := registerRefs ident key outputs st0.cached })
      outputs = true := hany
  have hst1 : callCachePutMethod cfg ident key outputs st0 =
      { st0 with cached := registerRefs ident key outputs st0.cached } := by
    rw [callCachePutMethod, if_pos hput]
    exact cache_put_of_missing hany'
  have hne : events ≠ [] := by
    intro h
    rw [h] at hperm
    exact hmiss (List.Perm.eq_nil hperm.symm)
  have hnodupM : (missingIds ident st0.uploaded outputs).Nodup := by
    rw [missingIds]
    exact List.nodup_dedup _
  have hnodup : (eventIds ident events).Nodup := (hperm.nodup_iff).mpr hnodupM
  obtain ⟨stF, hrunF, hcachedF, hpubF, hresF, hpreF⟩ :=
    runUploads_missing cfg ident key outputs hput hback events
      { st0 with cached := registerRefs ident key outputs st0.cached }
      hne hnodup
      (fun i hi =>
        ((mem_missingIds ident st0.uploaded outputs i).mp ((hperm.mem_iff).mp hi)).1)
      (fun i hi => by
        show alookup (registerRefs ident key outputs st0.cached) i = some (key, outputs)
        rw [alookup_registerRefs,
          if_pos ((mem_missingIds ident st0.uploaded outputs i).mp ((hperm.mem_iff).mp hi)).1])
      (fun i hi =>
        ((mem_missingIds ident st0.uploaded outputs i).mp ((hperm.mem_iff).mp hi)).2)
      (fun i hi => by
        by_cases hsome : (alookup st0.uploaded i).isSome = true
        · exact Or.inl hsome
        · exact Or.inr ((hperm.mem_iff).mpr
            ((mem_missingIds ident st0.uploaded outputs i).mpr
              ⟨hi, Option.not_isSome_iff_eq_none.mp hsome⟩)))
  refine ⟨by rw [hst1], ⟨stF, ?_, hpubF, hresF⟩, ?_,
    fun dirPath uri stD => ⟨rfl, rfl, rfl⟩⟩
  · rw [hst1]
    exact hrunF
  · intro pre hpre hlen
    obtain ⟨stP, h1, h2⟩ := hpreF pre hpre hlen
    refine ⟨stP, ?_, h2⟩
    rw [hst1]
    exact h1

/-- Claim C1 counterexample: a pending cache-insert whose only
missing identity is a directory's, at a concrete input. The insert
publishes nothing; the Uploader then records that directory
identity in the Upload Ledger through its direct directory-record
write (the only way the code ever records a directory identity) —
the last missing identity is now in the ledger, yet no manifest has
been published and the pending entry is still waiting, refuting
"exactly one manifest is published at the moment the last missing
identity is recorded in the ledger by the Uploader". -/
theorem c1_counterexample :
    missingIds identC pst0.uploaded [WValue.dir ("bb")] = [(2, 0)] ∧
    identC ("bb") = (2, 0) ∧
    (callCachePutMethod cfgOn identC ("k1") [WValue.dir ("bb")] pst0).published = [] ∧
    recordDirEntry identC ("bb") ("s3://u/bb/")
        (callCachePutMethod cfgOn identC ("k1") [WValue.dir ("bb")] pst0) =
      { uploaded := [((2, 0), ("s3://u/bb/"))],
        cached := [((2, 0), (("k1"), [WValue.dir ("bb")]))],
        published := [] } :=
  ⟨rfl, rfl, rfl, rfl⟩

theorem c1_witness :
    missingIds identC pst0.uploaded outputs1 ≠ [] ∧
    (eventIds identC events1).Perm (missingIds identC pst0.uploaded outputs1) ∧
    ((callCachePutMethod cfgOn identC ("k1") outputs1 pst0).published = pst0.published ∧
    (∃ stF, runUploads cfgOn identC events1 (callCachePutMethod cfgOn identC ("k1") outputs1 pst0) =
        .ok stF ∧
      stF.published = pst0.published ++
        [(manifestUri cfgOn ("k1"), resolveAll identC stF.uploaded outputs1)] ∧
      ∀ i ∈ refIds identC outputs1, (alookup stF.uploaded i).isSome = true) ∧
    (∀ pre, pre <+: events1 → pre.length < events1.length →
      ∃ stP, runUploads cfgOn identC pre (callCachePutMethod cfgOn identC ("k1") outputs1 pst0) =
          .ok stP ∧
        stP.published = pst0.published) ∧
    (∀ dirPath uri stD, (recordDirEntry identC dirPath uri stD).published = stD.published ∧
      (recordDirEntry identC dirPath uri stD).cached = stD.cached ∧
      (recordDirEntry identC dirPath uri stD).uploaded =
        (identC dirPath, uri) :: stD.uploaded)) :=
  ⟨by decide, by decide,
   c1_deferred_insert_publishes_once cfgOn identC ("k1") outputs1 pst0 events1 rfl rfl
     (by decide) (by decide)⟩

end MiniwdlS3
